import Mathlib

/-!
# Verification of the pendsim cart-and-pendulum simulator core

A shallow embedding of the pendsim core (plant, fixed-step RK4 integrator,
pluggable controllers, simulation driver, batch mode) together with proofs of
the behavioural properties stated in its specification.

The repository snapshot under verification carries only callers of the core
(the LQR tutorial notebook, the CI workflow and the JOSS paper); the core
modules sim.py and controller.py themselves are absent.  Every definition that
embeds a missing core function is therefore modelled from the specification
document and marked as such in its doc comment.  Real arithmetic is embedded
over the rationals; the trigonometric functions the dynamics need are passed
in as an explicit pair of function parameters (`Trig`), so that every theorem
holds for any trigonometric implementation satisfying the stated hypotheses
(floating-point sine satisfies `sin 0 = 0` exactly).
-/

/-- Modelled from the spec (section 3, State): the ordered 4-tuple
(cart position `p`, cart velocity `pd`, pendulum angle `th` measured from
upright, angular velocity `thd`), real-valued and unbounded. -/
structure State where
  p : ℚ
  pd : ℚ
  th : ℚ
  thd : ℚ
deriving Repr, DecidableEq

namespace State

/-- Componentwise sum of two states (used by the RK4 integrator). -/
def add (a b : State) : State :=
  ⟨a.p + b.p, a.pd + b.pd, a.th + b.th, a.thd + b.thd⟩

/-- Scaling of a state by a rational (used by the RK4 integrator). -/
def smul (c : ℚ) (a : State) : State :=
  ⟨c * a.p, c * a.pd, c * a.th, c * a.thd⟩

/-- The all-zero state: the upright equilibrium. -/
def zero : State := ⟨0, 0, 0, 0⟩

theorem smul_zero' (c : ℚ) : smul c zero = zero := by
  simp [smul, zero]

theorem add_zero' : add zero zero = zero := by
  simp [add, zero]

end State

/-- A trigonometric implementation: the simulator's dynamics are stated over
an arbitrary pair of sine/cosine functions, mirroring the fact that the
source delegates `sin`/`cos` to its numerics library. -/
structure Trig where
  sin : ℚ → ℚ
  cos : ℚ → ℚ

/-- Modelled from the spec (section 3, PhysicalParams; section 4.1): the plant
holds the large mass `M`, small mass `m`, arm length `l`, the gravitational
constant `g`, and the initial state supplied at construction.  Parameters and
initial state are immutable once constructed. -/
structure Pendulum where
  M : ℚ
  m : ℚ
  l : ℚ
  g : ℚ
  initial_state : State

/-- Modelled from the spec (section 4.1): the coupled nonlinear equations of
motion of the cart-pendulum in standard Lagrangian form, with the angle
measured from upright; cart acceleration and angular acceleration each depend
on sin th, cos th, thd squared, the masses, the length, and the sum of the
control force `u` and external force `f`. -/
def derivative (tr : Trig) (pend : Pendulum) (x : State) (u f : ℚ) : State :=
  let s := tr.sin x.th
  let c := tr.cos x.th
  let F := u + f
  let den := pend.M + pend.m * s * s
  let pdd := (F + pend.m * s * (pend.l * x.thd * x.thd - pend.g * c)) / den
  let thdd := ((pend.M + pend.m) * pend.g * s
      - c * (F + pend.m * pend.l * x.thd * x.thd * s)) / (pend.l * den)
  ⟨x.pd, pdd, x.thd, thdd⟩

/-- Modelled from the spec (section 4.2): one fixed-step explicit 4th-order
Runge-Kutta step — four derivative evaluations, weighted average — advancing
the state by `dt` under control `u` and external force `f`. -/
def rk4_step (tr : Trig) (pend : Pendulum) (dt : ℚ) (x : State) (u f : ℚ) : State :=
  let k1 := derivative tr pend x u f
  let k2 := derivative tr pend (x.add (State.smul (dt / 2) k1)) u f
  let k3 := derivative tr pend (x.add (State.smul (dt / 2) k2)) u f
  let k4 := derivative tr pend (x.add (State.smul dt k3)) u f
  x.add (State.smul (dt / 6)
    (k1.add ((State.smul 2 k2).add ((State.smul 2 k3).add k4))))

/-- Modelled from the spec (sections 3 and 6): simulation configuration —
timestep `dt`, horizon `t_final`, the pure external forcing function of time,
and an optional noise source.  The spec's NoiseSpec draws per-step Gaussian
perturbations from a standard-deviation vector; the randomness is embedded as
the already-sampled sequence of perturbation vectors, one per timestep. -/
structure Simulation where
  dt : ℚ
  t_final : ℚ
  force : ℚ → ℚ
  noise : Option (ℕ → State)

/-- Configuration errors reported before any stepping occurs. -/
inductive ConfigError where
  | invalidTimestep
deriving Repr, DecidableEq

/-- Modelled from the spec (section 7): dt ≤ 0 or t_final ≤ dt is a
configuration error, fatal before any stepping occurs. -/
def mkSimulation (dt t_final : ℚ) (force : ℚ → ℚ) (noise : Option (ℕ → State)) :
    Except ConfigError Simulation :=
  if dt ≤ 0 ∨ t_final ≤ dt then .error .invalidTimestep
  else .ok ⟨dt, t_final, force, noise⟩

/-- Modelled from the spec (section 3, SimulationConfig): the total number of
timestep iterations of a run is floor(t_final / dt). -/
def totalSteps (dt t_final : ℚ) : ℕ := ⌊t_final / dt⌋₊

/-- Modelled from the spec (section 3, ResultRecord): one record per timestep —
time, true state, measured state (present iff noise is enabled), control
action, and the external force value.  (No estimator is attached in the runs
modelled here, so the optional estimated-state field is omitted.) -/
structure ResultRecord where
  time : ℚ
  state : State
  measured : Option State
  action : ℚ
  forceVal : ℚ
deriving Repr, DecidableEq

/-- Modelled from the spec (section 4.3): a controller is its construction-time
internal state together with its `compute_action` entry point, which maps
internal state, the state fed to the controller, and the timestamp to the
scalar control action and the successor internal state. -/
structure Ctrl (C : Type) where
  init : C
  step : C → State → ℚ → ℚ × C

/-- Modelled from the spec (section 4.5): the driver's time-stepping loop.
At step `k` with time `t = k * dt`: evaluate the external force; read the true
state; if noise is configured, produce the measured state by perturbing the
true state (without mutating the true trajectory, section 3 NoiseSpec); invoke
the controller on the true state to get the action; advance the plant by one
RK4 step using control plus external force; append a ResultRecord.  Returns
the records together with the final (plant state, controller state) pair. -/
def runLoop {C : Type} (tr : Trig) (pend : Pendulum) (simu : Simulation)
    (ctrl : Ctrl C) : ℕ → ℕ → State × C → List ResultRecord × (State × C)
  | 0, _, sc => ([], sc)
  | n + 1, k, sc =>
    let x := sc.1
    let t := (k : ℚ) * simu.dt
    let f := simu.force t
    let measured := simu.noise.map (fun ns => x.add (ns k))
    let uc := ctrl.step sc.2 x t
    let next := rk4_step tr pend simu.dt x uc.1 f
    let rest := runLoop tr pend simu ctrl n (k + 1) (next, uc.2)
    (⟨t, x, measured, uc.1, f⟩ :: rest.1, rest.2)

/-- Modelled from the spec (section 4.5): `simulate(plant, controller)` runs
`totalSteps` iterations from the plant's construction-time initial state and
the controller's construction-time internal state, returning the ResultLog.
The run's current state is threaded locally through the loop; the Pendulum
value itself carries only construction-time data. -/
def simulate {C : Type} (tr : Trig) (simu : Simulation) (pend : Pendulum)
    (ctrl : Ctrl C) : List ResultRecord :=
  (runLoop tr pend simu ctrl (totalSteps simu.dt simu.t_final) 0
    (pend.initial_state, ctrl.init)).1

/-- Validation followed by simulation: the spec's construction-then-run
protocol, which refuses to step at all on an invalid configuration. -/
def runSimulation {C : Type} (tr : Trig) (dt t_final : ℚ) (force : ℚ → ℚ)
    (noise : Option (ℕ → State)) (pend : Pendulum) (ctrl : Ctrl C) :
    Except ConfigError (List ResultRecord) :=
  match mkSimulation dt t_final force noise with
  | .error e => .error e
  | .ok simu => .ok (simulate tr simu pend ctrl)

/-- Modelled from the spec (section 4.5): `simulate_multiple` iterates over the
(plant, controller) pairs in order, runs `simulate` independently for each,
and tags each run's ResultLog with its run index. -/
def simulate_multiple_aux {C : Type} (tr : Trig) (simu : Simulation) :
    ℕ → List (Pendulum × Ctrl C) → List (ℕ × List ResultRecord)
  | _, [] => []
  | i, pc :: rest =>
    (i, simulate tr simu pc.1 pc.2) :: simulate_multiple_aux tr simu (i + 1) rest

/-- Modelled from the spec (section 4.5): batch mode over parallel lists of
plants and controllers, results tagged by run index and concatenated, indexed
with the run id as the outermost level. -/
def simulate_multiple {C : Type} (tr : Trig) (simu : Simulation)
    (pends : List Pendulum) (conts : List (Ctrl C)) : List (ℕ × List ResultRecord) :=
  simulate_multiple_aux tr simu 0 (pends.zip conts)

/-! ## Controllers -/

open Matrix

abbrev Vec4 := Fin 4 → ℚ

abbrev Mat4 := Matrix (Fin 4) (Fin 4) ℚ

/-- The state as the 4-vector [p, pd, th, thd] used by linear feedback. -/
def State.toVec (x : State) : Vec4 := ![x.p, x.pd, x.th, x.thd]

/-- Modelled from the spec (section 4.3, PID): the PID controller's internal
state is the integral accumulator and the previous error. -/
structure PIDState where
  integral : ℚ
  prevErr : ℚ
deriving Repr, DecidableEq

/-- Modelled from the spec (section 4.3, PID): one `compute_action` call with
error signal `e`: accumulate the integral, form
u = kp * e + ki * integral + kd * (e - e_prev) / dt, and remember `e`. -/
def pid_action (kp ki kd dt : ℚ) (st : PIDState) (e : ℚ) : ℚ × PIDState :=
  let integral := st.integral + e * dt
  let deriv := (e - st.prevErr) / dt
  (kp * e + ki * integral + kd * deriv, ⟨integral, e⟩)

/-- Internal states of a PID controller fed the same constant error `e` at
every step, starting from the freshly constructed zero accumulator. -/
def pidStates (kp ki kd dt e : ℚ) : ℕ → PIDState
  | 0 => ⟨0, 0⟩
  | k + 1 => (pid_action kp ki kd dt (pidStates kp ki kd dt e k) e).2

/-- The control action the PID controller outputs at step `k` when fed the
same constant error `e` at every step. -/
def pidOut (kp ki kd dt e : ℚ) (k : ℕ) : ℚ :=
  (pid_action kp ki kd dt (pidStates kp ki kd dt e k) e).1

/-- Controller construction errors reported before any gain is computed. -/
inductive CtrlError where
  | invalidR
deriving Repr, DecidableEq

/-- Modelled from the spec (section 4.1): `linearize` returns the Jacobian
state matrix A and input matrix B of `derivative` at the unstable upright
equilibrium (th = 0, thd = 0, u = f = 0). -/
def linearize (pend : Pendulum) : Mat4 × Vec4 :=
  (!![0, 1, 0, 0;
      0, 0, -(pend.m * pend.g) / pend.M, 0;
      0, 0, 0, 1;
      0, 0, (pend.M + pend.m) * pend.g / (pend.M * pend.l), 0],
   ![0, 1 / pend.M, 0, -(1 / (pend.M * pend.l))])

/-- One backward Riccati recursion step for the discretized system (Ad, Bd)
with scalar control cost R: P' = Q + Adᵀ P Ad - Adᵀ P Bd s⁻¹ Bdᵀ P Ad where
s = R + Bdᵀ P Bd. -/
def riccatiStep (Ad : Mat4) (Bd : Vec4) (Q : Mat4) (R : ℚ) (P : Mat4) : Mat4 :=
  let s := R + Bd ⬝ᵥ P.mulVec Bd
  let K := s⁻¹ • Matrix.vecMul (Matrix.vecMul Bd P) Ad
  Q + Ad.transpose * P * Ad - Matrix.vecMulVec (Ad.transpose.mulVec (P.mulVec Bd)) K

/-- The backward Riccati recursion iterated from P = Q. -/
def riccatiIter (Ad : Mat4) (Bd : Vec4) (Q : Mat4) (R : ℚ) : ℕ → Mat4
  | 0 => Q
  | n + 1 => riccatiStep Ad Bd Q R (riccatiIter Ad Bd Q R n)

/-- Modelled from the spec (section 4.3, LQR): the gain K computed at
construction from the plant linearization (A, B), discretized over `dt`
(Ad = I + dt A, Bd = dt B), by solving the Riccati equation over the horizon
given by `window` and forming K = s⁻¹ Bdᵀ P Ad.  A pure function of
(plant linearization, dt, Q, R, window) only. -/
def lqrGain (pend : Pendulum) (dt : ℚ) (Q : Mat4) (R : ℚ) (window : ℕ) : Vec4 :=
  let AB := linearize pend
  let Ad := 1 + dt • AB.1
  let Bd := dt • AB.2
  let P := riccatiIter Ad Bd Q R window
  let s := R + Bd ⬝ᵥ P.mulVec Bd
  s⁻¹ • Matrix.vecMul (Matrix.vecMul Bd P) Ad

/-- Modelled from the spec (sections 3 and 4.3, LQR): the LQR controller's
internal state is the gain K cached at construction; `compute_action` returns
u = -(K ⬝ x) and leaves the cache unchanged (Q, R and window never change
during a run, so the cached gain is never recomputed). -/
def lqrController (pend : Pendulum) (dt : ℚ) (Q : Mat4) (R : ℚ) (window : ℕ) :
    Ctrl Vec4 :=
  ⟨lqrGain pend dt Q R window, fun K x _ => (-(K ⬝ᵥ x.toVec), K)⟩

/-- Modelled from the spec (sections 4.3 and 7): LQR construction guards its
inputs — R ≤ 0 is reported as a configuration error before the Riccati solve
is attempted, and only a validated R reaches the gain computation. -/
def LQR (pend : Pendulum) (dt : ℚ) (Q : Mat4) (R : ℚ) (window : ℕ) :
    Except CtrlError (Ctrl Vec4) :=
  if R ≤ 0 then .error .invalidR
  else .ok (lqrController pend dt Q R window)

/-! ## Energy swing-up controller -/

/-- The two modes of the swing-up state machine. -/
inductive SwingMode where
  | swinging
  | stabilizing
deriving Repr, DecidableEq

/-- Modelled from the spec (section 4.4): the swing-up controller's internal
state is its explicit mode field. -/
structure SwingUpState where
  mode : SwingMode
deriving Repr, DecidableEq

/-- Modelled from the spec (section 4.4): configuration of the energy swing-up
controller — pendulum parameters for the energy computation, the energy gain,
the desired energy, the capture-region bounds on angle and angular velocity,
and the gain row of the stabilizing linear controller it hands over to. -/
structure SwingUpCfg where
  m : ℚ
  l : ℚ
  g : ℚ
  kE : ℚ
  eDes : ℚ
  thBand : ℚ
  thdBand : ℚ
  stabGain : Vec4

/-- Modelled from the spec (section 4.4): the pendulum's mechanical energy,
kinetic plus potential relative to upright. -/
def mechEnergy (tr : Trig) (cfg : SwingUpCfg) (x : State) : ℚ :=
  (1 / 2) * cfg.m * cfg.l * cfg.l * x.thd * x.thd
    + cfg.m * cfg.g * cfg.l * (tr.cos x.th - 1)

/-- Modelled from the spec (section 4.4): the energy-pumping action,
proportional to (E_desired - E_current) * cos th * thd. -/
def swingAction (tr : Trig) (cfg : SwingUpCfg) (x : State) : ℚ :=
  cfg.kE * (cfg.eDes - mechEnergy tr cfg x) * tr.cos x.th * x.thd

/-- The stabilizing linear feedback used once the capture region is reached. -/
def stabAction (cfg : SwingUpCfg) (x : State) : ℚ :=
  -(cfg.stabGain ⬝ᵥ x.toVec)

/-- Modelled from the spec (section 4.4): one `compute_action` call of the
two-state machine {SWINGING, STABILIZING}.  In STABILIZING mode the mode is
kept and the stabilizing controller acts; in SWINGING mode, when angle and
angular velocity enter the capture region the mode transitions to
STABILIZING, otherwise the energy-pumping action is applied.  There is no
reverse transition. -/
def swingupStep (tr : Trig) (cfg : SwingUpCfg) (st : SwingUpState) (x : State) :
    ℚ × SwingUpState :=
  match st.mode with
  | .stabilizing => (stabAction cfg x, ⟨.stabilizing⟩)
  | .swinging =>
    if |x.th| ≤ cfg.thBand ∧ |x.thd| ≤ cfg.thdBand then
      (stabAction cfg x, ⟨.stabilizing⟩)
    else
      (swingAction tr cfg x, ⟨.swinging⟩)

/-- The internal state of the swing-up controller after a sequence of
`compute_action` calls on the given input states. -/
def swingupRun (tr : Trig) (cfg : SwingUpCfg) (st : SwingUpState)
    (inputs : List State) : SwingUpState :=
  inputs.foldl (fun s x => (swingupStep tr cfg s x).2) st

/-- The mode in which the k-th `compute_action` call of a run over `inputs`
is made: the mode after processing the first `k` inputs. -/
def modeAt (tr : Trig) (cfg : SwingUpCfg) (st : SwingUpState)
    (inputs : List State) (k : ℕ) : SwingMode :=
  (swingupRun tr cfg st (inputs.take k)).mode

/-! ## Noise bookkeeping -/

/-- Overwrite the measured-state field of each record, starting at step index
`k`, with the record's own true state perturbed by the noise sample of its
step — the shape a noisy run's log takes relative to the noiseless run. -/
def addMeasurements (ns : ℕ → State) : ℕ → List ResultRecord → List ResultRecord
  | _, [] => []
  | k, r :: rest =>
    ⟨r.time, r.state, some (r.state.add (ns k)), r.action, r.forceVal⟩
      :: addMeasurements ns (k + 1) rest

/-! ## Concrete instances used by witnesses -/

/-- A trigonometric implementation agreeing with sine and cosine at 0. -/
def trigEx : Trig := ⟨fun _ => 0, fun _ => 1⟩

/-- The tutorial notebook's pendulum: M = 2 kg, m = 1 kg, l = 2 m, zero
initial state. -/
def pendEx : Pendulum := ⟨2, 1, 2, 981 / 100, State.zero⟩

/-- A small valid configuration: dt = 1/2, t_final = 2, zero forcing,
no noise. -/
def simuEx : Simulation := ⟨1 / 2, 2, fun _ => 0, none⟩

/-- A stateless controller that always outputs zero control. -/
def ctrlZero : Ctrl Unit := ⟨(), fun c _ _ => (0, c)⟩

/-- The tutorial notebook's Q matrix: diag(0, 0, 100000, 1000). -/
def QEx : Mat4 := !![0,0,0,0; 0,0,0,0; 0,0,100000,0; 0,0,0,1000]

/-! ## Helper lemmas about the driver loop -/

theorem runLoop_length {C : Type} (tr : Trig) (pend : Pendulum)
    (simu : Simulation) (ctrl : Ctrl C) :
    ∀ (n k : ℕ) (sc : State × C), ((runLoop tr pend simu ctrl n k sc).1).length = n := by
  intro n
  induction n with
  | zero => intro k sc; rfl
  | succ n ih => intro k sc; simp [runLoop, ih]

theorem runLoop_ctrl_const {C : Type} (tr : Trig) (pend : Pendulum)
    (simu : Simulation) (ctrl : Ctrl C)
    (hstep : ∀ (c : C) (x : State) (t : ℚ), (ctrl.step c x t).2 = c) :
    ∀ (n k : ℕ) (sc : State × C), ((runLoop tr pend simu ctrl n k sc).2).2 = sc.2 := by
  intro n
  induction n with
  | zero => intro k sc; rfl
  | succ n ih => intro k sc; simp [runLoop, ih, hstep]

theorem derivative_zero (tr : Trig) (pend : Pendulum) (hsin : tr.sin 0 = 0) :
    derivative tr pend State.zero 0 0 = State.zero := by
  simp [derivative, State.zero, hsin]

theorem rk4_step_zero (tr : Trig) (pend : Pendulum) (dt : ℚ)
    (hsin : tr.sin 0 = 0) :
    rk4_step tr pend dt State.zero 0 0 = State.zero := by
  simp [rk4_step, derivative_zero tr pend hsin, State.smul_zero', State.add_zero']

theorem runLoop_zero_states {C : Type} (tr : Trig) (pend : Pendulum)
    (simu : Simulation) (ctrl : Ctrl C)
    (hsin : tr.sin 0 = 0)
    (hforce : ∀ t, simu.force t = 0)
    (hctrl : ∀ (c : C) (x : State) (t : ℚ), (ctrl.step c x t).1 = 0) :
    ∀ (n k : ℕ) (c : C),
      ((runLoop tr pend simu ctrl n k (State.zero, c)).1).map ResultRecord.state
        = List.replicate n State.zero := by
  intro n
  induction n with
  | zero => intro k c; rfl
  | succ n ih =>
    intro k c
    simp only [runLoop, hforce, hctrl, List.map_cons, List.replicate_succ,
      rk4_step_zero tr pend simu.dt hsin]
    exact congrArg (List.cons State.zero)
      (ih (k + 1) ((ctrl.step c State.zero ((k : ℚ) * simu.dt)).2))

theorem runLoop_noise {C : Type} (tr : Trig) (pend : Pendulum) (dt tf : ℚ)
    (force : ℚ → ℚ) (ns : ℕ → State) (ctrl : Ctrl C) :
    ∀ (n k : ℕ) (sc : State × C),
      runLoop tr pend ⟨dt, tf, force, some ns⟩ ctrl n k sc
        = (addMeasurements ns k (runLoop tr pend ⟨dt, tf, force, none⟩ ctrl n k sc).1,
           (runLoop tr pend ⟨dt, tf, force, none⟩ ctrl n k sc).2) := by
  intro n
  induction n with
  | zero => intro k sc; rfl
  | succ n ih =>
    intro k sc
    simp [runLoop, addMeasurements, ih]

theorem addMeasurements_map_state (ns : ℕ → State) :
    ∀ (k : ℕ) (l : List ResultRecord),
      (addMeasurements ns k l).map ResultRecord.state = l.map ResultRecord.state := by
  intro k l
  induction l generalizing k with
  | nil => rfl
  | cons r rest ih => simp [addMeasurements, ih]

theorem simulate_multiple_aux_map_fst {C : Type} (tr : Trig) (simu : Simulation) :
    ∀ (l : List (Pendulum × Ctrl C)) (i : ℕ),
      (simulate_multiple_aux tr simu i l).map Prod.fst = List.range' i l.length := by
  intro l
  induction l with
  | nil => intro i; rfl
  | cons pc rest ih => intro i; simp [simulate_multiple_aux, ih, List.range'_succ]

theorem simulate_multiple_aux_map_snd {C : Type} (tr : Trig) (simu : Simulation) :
    ∀ (l : List (Pendulum × Ctrl C)) (i : ℕ),
      (simulate_multiple_aux tr simu i l).map Prod.snd
        = l.map (fun pc => simulate tr simu pc.1 pc.2) := by
  intro l
  induction l with
  | nil => intro i; rfl
  | cons pc rest ih => intro i; simp [simulate_multiple_aux, ih]

theorem zip_replicate_left {α β : Type} :
    ∀ (l : List β) (a : α), (List.replicate l.length a).zip l = l.map (fun b => (a, b)) := by
  intro l
  induction l with
  | nil => intro a; rfl
  | cons b rest ih => intro a; simp [List.replicate_succ, ih]

theorem swingupRun_stab (tr : Trig) (cfg : SwingUpCfg) :
    ∀ (l : List State) (st : SwingUpState), st.mode = .stabilizing →
      (swingupRun tr cfg st l).mode = .stabilizing := by
  intro l
  induction l with
  | nil => intro st h; exact h
  | cons x rest ih =>
    intro st h
    have hstep : (swingupStep tr cfg st x).2 = ⟨.stabilizing⟩ := by
      simp [swingupStep, h]
    show (List.foldl (fun s y => (swingupStep tr cfg s y).2) (swingupStep tr cfg st x).2 rest).mode
        = .stabilizing
    rw [hstep]
    exact ih ⟨.stabilizing⟩ rfl

theorem pidStates_integral (kp ki kd dt e : ℚ) :
    ∀ k : ℕ, (pidStates kp ki kd dt e k).integral = (k : ℚ) * (e * dt) := by
  intro k
  induction k with
  | zero => simp [pidStates]
  | succ k ih =>
    simp only [pidStates, pid_action, Nat.cast_succ]
    rw [ih]
    ring

theorem pidOut_closed (ki dt e : ℚ) (k : ℕ) :
    pidOut 0 ki 0 dt e k = ki * (e * dt) * ((k : ℚ) + 1) := by
  simp only [pidOut, pid_action, pidStates_integral]
  ring

/-! ## Claim theorems -/

/-- C1: every LQR controller construction with R ≤ 0 (including exactly R = 0)
is reported as a configuration error before any Riccati solve is attempted,
and no gain K is ever produced from such an R. -/
theorem lqr_R_nonpos_is_config_error (pend : Pendulum) (dt : ℚ) (Q : Mat4)
    (R : ℚ) (window : ℕ) (hR : R ≤ 0) :
    LQR pend dt Q R window = .error .invalidR := by
  unfold LQR
  rw [if_pos hR]

theorem lqr_R_nonpos_is_config_error_witness :
    LQR pendEx (1 / 100) QEx 0 10 = .error .invalidR :=
  lqr_R_nonpos_is_config_error pendEx (1 / 100) QEx 0 10 le_rfl

/-- C3: for every valid configuration (dt > 0, t_final > dt), simulate
executes exactly floor(t_final / dt) timestep iterations, appending exactly
one ResultRecord per iteration — never fewer, never more. -/
theorem simulate_length {C : Type} (tr : Trig) (simu : Simulation)
    (pend : Pendulum) (ctrl : Ctrl C)
    (hdt : 0 < simu.dt) (htf : simu.dt < simu.t_final) :
    (simulate tr simu pend ctrl).length = totalSteps simu.dt simu.t_final :=
  runLoop_length tr pend simu ctrl (totalSteps simu.dt simu.t_final) 0
    (pend.initial_state, ctrl.init)

theorem simulate_length_witness :
    (simulate trigEx simuEx pendEx ctrlZero).length = totalSteps simuEx.dt simuEx.t_final :=
  simulate_length trigEx simuEx pendEx ctrlZero
    (by norm_num [simuEx]) (by norm_num [simuEx])

/-- C4: for a Plant constructed with the all-zero initial state, a zero
external-force function and a controller that always outputs zero control,
the state logged at every timestep of simulate is exactly the zero state —
the upright equilibrium is an exact fixed point of the integrator step. -/
theorem equilibrium_fixed_point {C : Type} (tr : Trig) (simu : Simulation)
    (pend : Pendulum) (ctrl : Ctrl C)
    (hsin : tr.sin 0 = 0)
    (hinit : pend.initial_state = State.zero)
    (hforce : ∀ t, simu.force t = 0)
    (hctrl : ∀ (c : C) (x : State) (t : ℚ), (ctrl.step c x t).1 = 0) :
    (simulate tr simu pend ctrl).map ResultRecord.state
      = List.replicate (totalSteps simu.dt simu.t_final) State.zero := by
  unfold simulate
  rw [hinit]
  exact runLoop_zero_states tr pend simu ctrl hsin hforce hctrl _ 0 ctrl.init

theorem equilibrium_fixed_point_witness :
    (simulate trigEx simuEx pendEx ctrlZero).map ResultRecord.state
      = List.replicate (totalSteps simuEx.dt simuEx.t_final) State.zero :=
  equilibrium_fixed_point trigEx simuEx pendEx ctrlZero rfl rfl
    (fun _ => rfl) (fun _ _ _ => rfl)

/-- C8: every configuration with dt ≤ 0 or t_final ≤ dt fails with a
configuration error before any timestep is executed, so no ResultRecord is
ever produced from it. -/
theorem invalid_config_is_fatal {C : Type} (tr : Trig) (dt t_final : ℚ)
    (force : ℚ → ℚ) (noise : Option (ℕ → State)) (pend : Pendulum)
    (ctrl : Ctrl C) (h : dt ≤ 0 ∨ t_final ≤ dt) :
    runSimulation tr dt t_final force noise pend ctrl = .error .invalidTimestep := by
  unfold runSimulation mkSimulation
  rw [if_pos h]

theorem invalid_config_is_fatal_witness :
    runSimulation trigEx 0 1 (fun _ => 0) none pendEx ctrlZero
      = .error .invalidTimestep :=
  invalid_config_is_fatal trigEx 0 1 (fun _ => 0) none pendEx ctrlZero
    (Or.inl le_rfl)

/-- The tutorial notebook's LQR controller at R = 1, window = 10. -/
def lqrEx : Ctrl Vec4 := lqrController pendEx (1 / 100) QEx 1 10

/-- C2: two LQR controller constructions given identical inputs (the same
plant linearization, Q, R and window) carry identical gains K, and the cached
gain is unchanged by running any number of timesteps, so K does not depend on
the number of timesteps of any run it is used in. -/
theorem lqr_gain_deterministic (pend : Pendulum) (dt : ℚ) (Q : Mat4) (R : ℚ)
    (window : ℕ) (tr : Trig) (simu : Simulation) (c₁ c₂ : Ctrl Vec4)
    (n k : ℕ) (x : State)
    (h₁ : LQR pend dt Q R window = .ok c₁)
    (h₂ : LQR pend dt Q R window = .ok c₂) :
    c₁.init = c₂.init ∧
      ((runLoop tr pend simu c₁ n k (x, c₁.init)).2).2 = c₁.init := by
  by_cases hR : R ≤ 0
  · rw [lqr_R_nonpos_is_config_error pend dt Q R window hR] at h₁
    exact absurd h₁ (by simp)
  · unfold LQR at h₁ h₂
    rw [if_neg hR] at h₁ h₂
    have hc₁ : c₁ = lqrController pend dt Q R window := by
      injection h₁ with h; exact h.symm
    have hc₂ : c₂ = lqrController pend dt Q R window := by
      injection h₂ with h; exact h.symm
    subst hc₁; subst hc₂
    exact ⟨rfl, runLoop_ctrl_const tr pend simu _ (fun _ _ _ => rfl) n k _⟩

theorem lqr_gain_deterministic_witness :
    lqrEx.init = lqrEx.init ∧
      ((runLoop trigEx pendEx simuEx lqrEx 3 0 (State.zero, lqrEx.init)).2).2
        = lqrEx.init :=
  lqr_gain_deterministic pendEx (1 / 100) QEx 1 10 trigEx simuEx lqrEx lqrEx
    3 0 State.zero (by norm_num [LQR, lqrEx]) (by norm_num [LQR, lqrEx])

/-- C5: with a noise spec configured, the noisy run differs from the same run
without noise only in the measured-state fields: record by record it equals
the noiseless log with each record's measured state set to that record's own
true state perturbed by that step's noise sample; in particular the true
trajectory logged and advanced by the integrator is identical. -/
theorem noise_preserves_true_trajectory {C : Type} (tr : Trig)
    (pend : Pendulum) (dt tf : ℚ) (force : ℚ → ℚ) (ns : ℕ → State)
    (ctrl : Ctrl C) :
    simulate tr ⟨dt, tf, force, some ns⟩ pend ctrl
        = addMeasurements ns 0 (simulate tr ⟨dt, tf, force, none⟩ pend ctrl)
      ∧ (simulate tr ⟨dt, tf, force, some ns⟩ pend ctrl).map ResultRecord.state
        = (simulate tr ⟨dt, tf, force, none⟩ pend ctrl).map ResultRecord.state := by
  have h : simulate tr ⟨dt, tf, force, some ns⟩ pend ctrl
      = addMeasurements ns 0 (simulate tr ⟨dt, tf, force, none⟩ pend ctrl) := by
    show (runLoop tr pend ⟨dt, tf, force, some ns⟩ ctrl (totalSteps dt tf) 0
        (pend.initial_state, ctrl.init)).1 = _
    rw [runLoop_noise tr pend dt tf force ns ctrl (totalSteps dt tf) 0
      (pend.initial_state, ctrl.init)]
    rfl
  exact ⟨h, by rw [h, addMeasurements_map_state]⟩

/-- A swing-up configuration used by witnesses: unit energy gain, capture
region given by the band 1/10 on angle and angular velocity. -/
def swingCfgEx : SwingUpCfg := ⟨1, 2, 981 / 100, 1, 0, 1 / 10, 1 / 10, fun _ => 0⟩

/-- C6: the EnergySwingUp mode machine never leaves STABILIZING: in every
sequence of compute_action calls, every call made at or after a call made in
STABILIZING mode is also made in STABILIZING mode, so the machine never
transitions back to SWINGING. -/
theorem swingup_capture_terminal (tr : Trig) (cfg : SwingUpCfg)
    (st : SwingUpState) (inputs : List State) (i j : ℕ) (hij : i ≤ j)
    (hi : modeAt tr cfg st inputs i = .stabilizing) :
    modeAt tr cfg st inputs j = .stabilizing := by
  unfold modeAt at hi ⊢
  obtain ⟨d, rfl⟩ : ∃ d, j = i + d := ⟨j - i, (Nat.add_sub_cancel' hij).symm⟩
  rw [List.take_add]
  unfold swingupRun
  rw [List.foldl_append]
  exact swingupRun_stab tr cfg _ _ hi

theorem swingup_capture_terminal_witness :
    modeAt trigEx swingCfgEx ⟨.swinging⟩ [State.zero, State.zero] 2 = .stabilizing :=
  swingup_capture_terminal trigEx swingCfgEx ⟨.swinging⟩ [State.zero, State.zero]
    1 2 (by norm_num)
    (by norm_num [modeAt, swingupRun, swingupStep, swingCfgEx, State.zero])

/-- C7: a PID controller with ki > 0 and kp = kd = 0, fed the same constant
nonzero error at every step, outputs a control action whose magnitude is
strictly increasing in the step count. -/
theorem pid_integral_grows (ki dt e : ℚ) (j k : ℕ)
    (hki : 0 < ki) (he : e ≠ 0) (hdt : 0 < dt) (hjk : j < k) :
    |pidOut 0 ki 0 dt e j| < |pidOut 0 ki 0 dt e k| := by
  have hpos : 0 < |ki * (e * dt)| :=
    abs_pos.mpr (mul_ne_zero (ne_of_gt hki) (mul_ne_zero he (ne_of_gt hdt)))
  rw [pidOut_closed, pidOut_closed,
    abs_mul (ki * (e * dt)) ((j : ℚ) + 1),
    abs_mul (ki * (e * dt)) ((k : ℚ) + 1),
    abs_of_pos (show (0 : ℚ) < (j : ℚ) + 1 by positivity),
    abs_of_pos (show (0 : ℚ) < (k : ℚ) + 1 by positivity)]
  exact mul_lt_mul_of_pos_left
    (by exact_mod_cast Nat.add_lt_add_right hjk 1) hpos

theorem pid_integral_grows_witness :
    |pidOut 0 1 0 1 1 0| < |pidOut 0 1 0 1 1 1| :=
  pid_integral_grows 1 1 1 0 1 (by norm_num) (by norm_num) (by norm_num)
    (by norm_num)

theorem simulate_multiple_aux_length {C : Type} (tr : Trig) (simu : Simulation) :
    ∀ (l : List (Pendulum × Ctrl C)) (i : ℕ),
      (simulate_multiple_aux tr simu i l).length = l.length := by
  intro l
  induction l with
  | nil => intro i; rfl
  | cons pc rest ih => intro i; simp [simulate_multiple_aux, ih]

theorem map_const_replicate {α β : Type} (b : β) :
    ∀ l : List α, l.map (fun _ => b) = List.replicate l.length b := by
  intro l
  induction l with
  | nil => rfl
  | cons a rest ih => simp [ih, List.replicate_succ]

/-- C9: simulate_multiple over n (plant, controller) pairs returns a batch
result indexed with the run id as the outermost level: it holds exactly n run
ids, in the order the pairs were supplied (0, 1, ..., n-1), and the records
grouped under run id k are exactly the ResultLog of running simulate
independently on the k-th pair. -/
theorem simulate_multiple_indexed {C : Type} (tr : Trig) (simu : Simulation)
    (pends : List Pendulum) (conts : List (Ctrl C)) (n : ℕ)
    (hp : pends.length = n) (hc : conts.length = n) :
    (simulate_multiple tr simu pends conts).length = n
      ∧ (simulate_multiple tr simu pends conts).map Prod.fst = List.range n
      ∧ (simulate_multiple tr simu pends conts).map Prod.snd
          = (pends.zip conts).map (fun pc => simulate tr simu pc.1 pc.2) := by
  have hlen : (pends.zip conts).length = n := by
    rw [List.length_zip, hp, hc, min_self]
  refine ⟨?_, ?_, ?_⟩
  · unfold simulate_multiple
    rw [simulate_multiple_aux_length, hlen]
  · unfold simulate_multiple
    rw [simulate_multiple_aux_map_fst, hlen, List.range_eq_range']
  · unfold simulate_multiple
    rw [simulate_multiple_aux_map_snd]

theorem simulate_multiple_indexed_witness :
    (simulate_multiple trigEx simuEx [pendEx] [ctrlZero]).length = 1
      ∧ (simulate_multiple trigEx simuEx [pendEx] [ctrlZero]).map Prod.fst
          = List.range 1
      ∧ (simulate_multiple trigEx simuEx [pendEx] [ctrlZero]).map Prod.snd
          = ([pendEx].zip [ctrlZero]).map (fun pc => simulate trigEx simuEx pc.1 pc.2) :=
  simulate_multiple_indexed trigEx simuEx [pendEx] [ctrlZero] 1 rfl rfl

/-- C10: simulate does not mutate the Pendulum it is given — the Pendulum
carries only construction-time data and the driver threads the run's current
state locally — so reusing one Pendulum instance, including aliasing it across
every pair of a simulate_multiple call, gives each run the ResultLog of an
independent simulate on that instance, and every run starts from the
instance's constructed initial_state. -/
theorem pendulum_reuse_starts_fresh {C : Type} (tr : Trig) (simu : Simulation)
    (pend : Pendulum) (conts : List (Ctrl C))
    (h : 0 < totalSteps simu.dt simu.t_final) :
    (simulate_multiple tr simu (List.replicate conts.length pend) conts).map Prod.snd
        = conts.map (fun c => simulate tr simu pend c)
      ∧ ((simulate_multiple tr simu (List.replicate conts.length pend) conts).map
            Prod.snd).map (fun l => l.head?.map ResultRecord.state)
          = List.replicate conts.length (some pend.initial_state) := by
  have hA : (simulate_multiple tr simu (List.replicate conts.length pend) conts).map
      Prod.snd = conts.map (fun c => simulate tr simu pend c) := by
    unfold simulate_multiple
    rw [zip_replicate_left conts pend, simulate_multiple_aux_map_snd, List.map_map]
    rfl
  have hhead : ∀ c : Ctrl C,
      ((simulate tr simu pend c).head?).map ResultRecord.state
        = some pend.initial_state := by
    intro c
    obtain ⟨m, hm⟩ : ∃ m, totalSteps simu.dt simu.t_final = m + 1 :=
      ⟨totalSteps simu.dt simu.t_final - 1, (Nat.succ_pred_eq_of_pos h).symm⟩
    unfold simulate
    rw [hm]
    rfl
  refine ⟨hA, ?_⟩
  rw [hA, List.map_map,
    show ((fun l : List ResultRecord => l.head?.map ResultRecord.state)
        ∘ fun c : Ctrl C => simulate tr simu pend c)
      = fun _ : Ctrl C => some pend.initial_state from funext fun c => hhead c]
  exact map_const_replicate (some pend.initial_state) conts

theorem pendulum_reuse_starts_fresh_witness :
    (simulate_multiple trigEx simuEx (List.replicate [ctrlZero].length pendEx)
        [ctrlZero]).map Prod.snd
        = [ctrlZero].map (fun c => simulate trigEx simuEx pendEx c)
      ∧ ((simulate_multiple trigEx simuEx (List.replicate [ctrlZero].length pendEx)
            [ctrlZero]).map Prod.snd).map (fun l => l.head?.map ResultRecord.state)
          = List.replicate [ctrlZero].length (some pendEx.initial_state) :=
  pendulum_reuse_starts_fresh trigEx simuEx pendEx [ctrlZero]
    (by norm_num [totalSteps, simuEx])
